import Mathlib

/-!
Shallow embedding of the Google-Sheets-to-Supabase sync pipeline of the
`leonard-home-decor` repository.

Source of truth:
  * `src/app/api/sync/route.ts` — `processProducts`, `extractUrl`,
    `deleteAllProducts`, `insertProducts`, `POST`;
  * `src/unnamed/part_000` (the CLI sync script) — its own `processProducts`.

Spreadsheet cells are modelled by `Cell`: a cell is absent (JS `undefined`),
a string, or a number.  Numbers are modelled as integers (`Int`): the sheet
read the code performs returns formatted strings, the numeric branch is
defensive, and `String(n)` / `parseInt(n)` agree with JavaScript exactly on
integers.  JavaScript string primitives (`trim`, `parseInt`, `parseFloat`,
the three `replace` calls and the URL regex) are embedded below, character
by character, following the ECMAScript definitions the source relies on.
A JavaScript `TypeError` (calling `.trim()` on a number, which the source
does for columns A and B) is modelled with `Except`.
-/

/-- JavaScript WhiteSpace / LineTerminator characters: the set matched by
the regex class flag `\s` and skipped by `trim`, `parseInt`, `parseFloat`. -/
def jsWs (c : Char) : Bool :=
  c = ' ' || c = '\t' || c = '\n' || c = '\r' ||
  c.toNat = 0xb || c.toNat = 0xc || c.toNat = 0xa0 || c.toNat = 0x1680 ||
  (0x2000 ≤ c.toNat && c.toNat ≤ 0x200a) ||
  c.toNat = 0x2028 || c.toNat = 0x2029 || c.toNat = 0x202f ||
  c.toNat = 0x205f || c.toNat = 0x3000 || c.toNat = 0xfeff

/-- String.prototype.trim: drop leading and trailing JS whitespace. -/
def jsTrim (s : String) : String :=
  ⟨((s.data.dropWhile jsWs).reverse.dropWhile jsWs).reverse⟩

/-- Char-list version of String.prototype.startsWith. -/
def chStarts : List Char → List Char → Bool
  | [], _ => true
  | _ :: _, [] => false
  | p :: ps, c :: cs => p = c && chStarts ps cs

/-- String.prototype.startsWith pre s: does `s` start with `pre`? -/
def strStarts (pre s : String) : Bool :=
  chStarts pre.data s.data

/-- Characters removed by `.replace(/[₽рубRUB]/gi, '')`: the ruble sign and
the letters р у б R U B, case-insensitively (the `i` flag also folds the
Cyrillic letters). -/
def isCurrencyChar (c : Char) : Bool :=
  c = '₽' || c = 'р' || c = 'Р' || c = 'у' || c = 'У' || c = 'б' || c = 'Б' ||
  c = 'r' || c = 'R' || c = 'u' || c = 'U' || c = 'b' || c = 'B'

/-- The `.replace(/[₽рубRUB]/gi, '')` call. -/
def stripCurrency (s : String) : String :=
  ⟨s.data.filter (fun c => !isCurrencyChar c)⟩

/-- The `.replace(/\s+/g, '')` call: remove every JS whitespace character. -/
def stripWs (s : String) : String :=
  ⟨s.data.filter (fun c => !jsWs c)⟩

/-- The `.replace(/,/g, '')` call: remove every comma. -/
def stripCommas (s : String) : String :=
  ⟨s.data.filter (fun c => !(c = ','))⟩

/-- Numeric value of a list of decimal digit characters. -/
def digitsToNat (l : List Char) : Nat :=
  l.foldl (fun a c => 10 * a + (c.toNat - '0'.toNat)) 0

/-- Hexadecimal digit test, as used by `parseInt` on a `0x` prefixed string. -/
def isHexDigitCh (c : Char) : Bool :=
  c.isDigit || ('a' ≤ c && c ≤ 'f') || ('A' ≤ c && c ≤ 'F')

/-- Numeric value of a hexadecimal digit character. -/
def hexVal (c : Char) : Nat :=
  if c.isDigit then c.toNat - '0'.toNat
  else if 'a' ≤ c && c ≤ 'f' then c.toNat - 'a'.toNat + 10
  else c.toNat - 'A'.toNat + 10

/-- Numeric value of a list of hexadecimal digit characters. -/
def hexToNat (l : List Char) : Nat :=
  l.foldl (fun a c => 16 * a + hexVal c) 0

/-- Optional leading sign: returns (isNegative, rest). -/
def jsSign : List Char → Bool × List Char
  | '-' :: cs => (true, cs)
  | '+' :: cs => (false, cs)
  | cs => (false, cs)

/-- ECMAScript `parseInt(s)` with no explicit radix: skip whitespace, read
an optional sign, detect a `0x`/`0X` prefix (hexadecimal) or parse decimal
digits; no digits at all gives NaN, modelled as `none`. -/
def jsParseInt (s : String) : Option Int :=
  let cs := s.data.dropWhile jsWs
  let (neg, cs) := jsSign cs
  let core : Option Nat :=
    match cs with
    | '0' :: 'x' :: rest =>
        let ds := rest.takeWhile isHexDigitCh
        if ds.isEmpty then none else some (hexToNat ds)
    | '0' :: 'X' :: rest =>
        let ds := rest.takeWhile isHexDigitCh
        if ds.isEmpty then none else some (hexToNat ds)
    | _ =>
        let ds := cs.takeWhile Char.isDigit
        if ds.isEmpty then none else some (digitsToNat ds)
  core.map (fun n => if neg then -(n : Int) else (n : Int))

/-- Result of `parseFloat`: NaN, an infinity, or a finite value (modelled
as a rational). -/
inductive JsFloat where
  | nan : JsFloat
  | inf (neg : Bool) : JsFloat
  | fin (q : Rat) : JsFloat
deriving DecidableEq, Repr

/-- Ten to an integer power, as a rational. -/
def pow10 (e : Int) : Rat :=
  if 0 ≤ e then ((10 : Rat) ^ e.toNat) else 1 / ((10 : Rat) ^ (-e).toNat)

/-- Exponent part of a decimal literal: `e`/`E`, optional sign, digits.
If there is no well-formed exponent the longest valid prefix ends before
the `e`, so the exponent contributes a factor of one. -/
def jsExpPart : List Char → Int
  | 'e' :: rest => jsExpDigits rest
  | 'E' :: rest => jsExpDigits rest
  | _ => 0
where
  jsExpDigits (rest : List Char) : Int :=
    let (neg, rest) := jsSign rest
    let ds := rest.takeWhile Char.isDigit
    if ds.isEmpty then 0
    else if neg then -(digitsToNat ds : Int) else (digitsToNat ds : Int)

/-- Digits of the fractional part: consumed only when the remainder after
the integer digits starts with a decimal point. -/
def jsFracDigits : List Char → List Char
  | '.' :: rest => rest.takeWhile Char.isDigit
  | _ => []

/-- Remainder after the whole mantissa (where an exponent may start). -/
def jsAfterMantissa : List Char → List Char
  | '.' :: rest => rest.drop (rest.takeWhile Char.isDigit).length
  | l => l

/-- Unsigned part of a parsed decimal literal: `Infinity`, or
`Digits [. Digits] [Exponent]` / `. Digits [Exponent]`; no digits at all
gives NaN. -/
def jsDecValue (cs : List Char) : JsFloat :=
  if chStarts "Infinity".data cs then .inf false
  else if (cs.takeWhile Char.isDigit).isEmpty &&
      (jsFracDigits (cs.drop (cs.takeWhile Char.isDigit).length)).isEmpty then .nan
  else
    .fin (((digitsToNat (cs.takeWhile Char.isDigit) : Rat) +
        (digitsToNat (jsFracDigits (cs.drop (cs.takeWhile Char.isDigit).length)) : Rat) /
          ((10 : Rat) ^ (jsFracDigits (cs.drop (cs.takeWhile Char.isDigit).length)).length)) *
      pow10 (jsExpPart (jsAfterMantissa (cs.drop (cs.takeWhile Char.isDigit).length))))

/-- Negation of a parsed value, applied when the literal carries a `-`. -/
def jsNegate : JsFloat → JsFloat
  | .nan => .nan
  | .inf b => .inf (!b)
  | .fin q => .fin (-q)

/-- ECMAScript `parseFloat(s)`: skip whitespace, optional sign, then the
longest prefix that is `Infinity` or a decimal literal; no valid prefix
gives NaN. -/
def jsParseFloat (s : String) : JsFloat :=
  match s.data.dropWhile jsWs with
  | '-' :: rest => jsNegate (jsDecValue rest)
  | '+' :: rest => jsDecValue rest
  | cs => jsDecValue cs

/-! The cell and record model. -/

/-- Value of one spreadsheet cell as seen by the JavaScript code: absent
(`undefined`, also used for an out-of-range index), a string, or a number
(integer-valued; see the header comment). -/
inductive Cell where
  | absent : Cell
  | str (s : String) : Cell
  | num (n : Int) : Cell
deriving DecidableEq, Repr

/-- Raw spreadsheet row: the cell list `row`, indexed as in JS where an
out-of-range read yields `undefined`. -/
def colGet (row : List Cell) (i : Nat) : Cell :=
  row.getD i .absent

/-- Normalized product record built by `processProducts` (route.ts line 157
onward): exactly the object literal's fields. -/
structure Product where
  name : String
  brand : Option String
  stock : Int
  price : Option Rat
  image_url_1 : Option String
  image_url_2 : Option String
deriving DecidableEq, Repr

/-- JavaScript runtime error raised by the embedded code: `.trim()` called
on a number (columns A and B when the cell is numeric). -/
inductive JsError where
  | typeError : JsError
deriving DecidableEq, Repr

/-- Hyperlink overlay: the JS object keyed by the string `rowIndex_colIndex`
holding hyperlink URLs for the two image columns. -/
def HL : Type := String → Option String

/-- Key construction `` `${rowIndex}_${colIndex}` `` from `extractUrl`. -/
def hyperlinkKey (rowIndex colIndex : Nat) : String :=
  toString rowIndex ++ "_" ++ toString colIndex

/-- String coercion `String(v)` as applied by the code to a cell value it
has already checked to be defined (string or integer number). For an absent
cell JS would produce `"undefined"`; that case only ever feeds `parseInt`. -/
def cellToJsString : Cell → String
  | .absent => "undefined"
  | .str s => s
  | .num n => toString n

/-- Column A or B read, `row[i]?.trim() || null`: absent short-circuits to
`undefined` and then `|| null` gives null; a string is trimmed, an empty
trim result is falsy and gives null; a number has no `.trim` method and
raises a TypeError. -/
def trimmedCol (row : List Cell) (i : Nat) : Except JsError (Option String) :=
  match colGet row i with
  | .absent => .ok none
  | .str s => .ok (if jsTrim s = "" then none else some (jsTrim s))
  | .num _ => .error .typeError

/-- Column E coercion `parseInt(row[4]) || 0`: NaN is falsy and becomes 0
(so does a parsed 0). -/
def stockOf (row : List Cell) : Int :=
  match jsParseInt (cellToJsString (colGet row 4)) with
  | none => 0
  | some n => n

/-- The cleaning chain applied to a trimmed textual price: remove currency
characters, then all whitespace, then commas, then trim. -/
def cleanedPriceStr (priceStr : String) : String :=
  jsTrim (stripCommas (stripWs (stripCurrency priceStr)))

/-- Column F parsing (route.ts lines 105-127): absent/null/empty-string
cells give no price; a numeric cell is used as-is; a textual cell is
trimmed, cleaned and `parseFloat`-ed, kept only when finite. -/
def priceOf (cell : Cell) : Option Rat :=
  match cell with
  | .absent => none
  | .num n => some (n : Rat)
  | .str s =>
      if s = "" then none
      else
        let priceStr := jsTrim s
        if priceStr = "" then none
        else
          match jsParseFloat (cleanedPriceStr priceStr) with
          | .fin q => some q
          | _ => none

/-- Characters allowed in the URL tail by the regex `[^\s"')]+`. -/
def urlTailOk (c : Char) : Bool :=
  !(jsWs c || c = '"' || c = Char.ofNat 39 || c = ')')

/-- One attempted match of `/(https?:\/\/[^\s"')]+)/` at the head of the
list: the literal scheme (greedy optional `s`, with the backtracking the
pattern admits) followed by a non-empty allowed-character run. -/
def tryHttpAt (l : List Char) : Option String :=
  if chStarts "https://".data l then
    let tail := (l.drop 8).takeWhile urlTailOk
    if tail.isEmpty then none else some ⟨"https://".data ++ tail⟩
  else if chStarts "http://".data l then
    let tail := (l.drop 7).takeWhile urlTailOk
    if tail.isEmpty then none else some ⟨"http://".data ++ tail⟩
  else none

/-- Leftmost match of `str.match(/(https?:\/\/[^\s"')]+)/)`: scan left to
right, return the first position where the pattern matches. -/
def findHttpMatchAux : List Char → Option String
  | [] => none
  | c :: cs =>
      match tryHttpAt (c :: cs) with
      | some m => some m
      | none => findHttpMatchAux cs

/-- First `http(s)://…` substring of a string, or `none` when the regex
does not match. -/
def findHttpMatch (s : String) : Option String :=
  findHttpMatchAux s.data

/-- JS truthiness test `!cellValue`: `undefined`, the empty string and the
number 0 are falsy. -/
def jsFalsyCell : Cell → Bool
  | .absent => true
  | .str s => s = ""
  | .num n => n = 0

/-- Cell-text part of `extractUrl` (after the hyperlink lookup): falsy cell
gives null; otherwise stringify and trim; empty gives null; an `http://` or
`https://` head returns the trimmed text; otherwise the first embedded URL
per the regex, else null. -/
def extractUrlCell (cellValue : Cell) : Option String :=
  if jsFalsyCell cellValue then none
  else
    let str := jsTrim (cellToJsString cellValue)
    if str = "" then none
    else if strStarts "http://" str || strStarts "https://" str then some str
    else findHttpMatch str

/-- Function `extractUrl` (route.ts lines 130-154): a truthy hyperlink
overlay entry for the `(rowIndex, colIndex)` key wins; otherwise fall back
to the cell value. -/
def extractUrl (hl : HL) (rowIndex colIndex : Nat) (cellValue : Cell) : Option String :=
  match hl (hyperlinkKey rowIndex colIndex) with
  | some e => if e = "" then extractUrlCell cellValue else some e
  | none => extractUrlCell cellValue

/-- One iteration of the `rows.map((row, index) => …)` body: compute the
fields in source order (a TypeError in columns A/B propagates), then apply
the `!name || stock <= 0` filter, returning `none` for a discarded row. -/
def processRow (row : List Cell) (index : Nat) (hl : HL) :
    Except JsError (Option Product) := do
  let name ← trimmedCol row 0
  let brand ← trimmedCol row 1
  let stock := stockOf row
  let price := priceOf (colGet row 5)
  let image_url_1 := extractUrl hl index 6 (colGet row 6)
  let image_url_2 := extractUrl hl index 7 (colGet row 7)
  match name with
  | none => return none
  | some n =>
      if stock ≤ 0 then return none
      else return some ⟨n, brand, stock, price, image_url_1, image_url_2⟩

/-- Function `processProducts` (route.ts lines 94-175): map each row with
its index, then `.filter(product => product !== null)`. -/
def processProducts (rows : List (List Cell)) (hl : HL) :
    Except JsError (List Product) := do
  let mapped ← rows.enum.mapM (fun p => processRow p.2 p.1 hl)
  return mapped.filterMap id

/-! The destination table and the replace-all writer. -/

/-- One observable backing-store / external call issued by the sync. -/
inductive Op where
  | sheetRead : Op
  | selectIds : Op
  | deleteIn (ids : List Nat) : Op
  | insertBatch (ps : List Product) : Op
deriving DecidableEq, Repr

/-- Destination `products` table: rows paired with their storage-generated
ids, plus the id counter the storage layer uses for fresh ids. -/
structure Store where
  nextId : Nat
  rows : List (Nat × Product)
deriving DecidableEq, Repr

/-- Function `deleteAllProducts` (route.ts lines 178-206): select all ids;
if none, stop; otherwise delete every fetched id in a single `.in('id', …)`
call.  Returns the new table state and the calls issued. -/
def deleteAllProducts (st : Store) : Store × List Op :=
  let ids := st.rows.map Prod.fst
  if ids.isEmpty then (st, [.selectIds])
  else
    ({ st with rows := st.rows.filter (fun r => !(ids.contains r.1)) },
     [.selectIds, .deleteIn ids])

/-- The `products.slice(i, i + batchSize)` loop structure: successive
chunks of at most 100 records. -/
def chunk100 : List Product → List (List Product)
  | [] => []
  | a :: l => (a :: l).take 100 :: chunk100 ((a :: l).drop 100)
termination_by ps => ps.length
decreasing_by
  simpa using Nat.lt_succ_of_le (Nat.sub_le l.length 99)

/-- Append one inserted batch to the table, with storage-generated ids. -/
def insertBatch (st : Store) (b : List Product) : Store :=
  { nextId := st.nextId + b.length,
    rows := st.rows ++ b.enum.map (fun p => (st.nextId + p.1, p.2)) }

/-- The batch insertion loop of `insertProducts`. -/
def insertLoop (st : Store) : List (List Product) → Store × List Op
  | [] => (st, [])
  | b :: bs =>
      let st1 := insertBatch st b
      let (st2, ops) := insertLoop st1 bs
      (st2, .insertBatch b :: ops)

/-- Function `insertProducts` (route.ts lines 209-234): an empty product
list issues no call at all; otherwise insert the 100-element chunks in
order. -/
def insertProducts (st : Store) (ps : List Product) : Store × List Op :=
  if ps.isEmpty then (st, [])
  else insertLoop st (chunk100 ps)

/-! The HTTP handler. -/

/-- Environment configuration read by `POST`; a JS falsy value (unset or
empty string) is modelled as `none`. -/
structure Env where
  syncSecretKey : Option String
  googleSheetId : Option String
  supabaseUrl : Option String
  supabaseServiceRoleKey : Option String

/-- JSON body of the handler's response. -/
structure RespBody where
  success : Bool
  error : Option String
  count : Option Nat
deriving DecidableEq, Repr

/-- HTTP response of the handler. -/
structure Resp where
  status : Nat
  body : RespBody
deriving DecidableEq, Repr

/-- The 401 response `{success:false, error:"Unauthorized"}`. -/
def unauthorizedResp : Resp :=
  ⟨401, ⟨false, some "Unauthorized", none⟩⟩

/-- A 500 response `{success:false, error:<msg>}` from the catch block. -/
def failResp (msg : String) : Resp :=
  ⟨500, ⟨false, some msg, none⟩⟩

/-- Error message of the modelled JS runtime error. -/
def jsErrorMsg : JsError → String
  | .typeError => "TypeError"

/-- Handler `POST` (route.ts lines 236-328).  External I/O is abstracted by
its outcome: `sheet` is the result of `initializeSheetsAPI` +
`readSheetData` (rows and hyperlink overlay, or a thrown error message),
and the Supabase table is the explicit `Store`.  Returns the response, the
final table state, and the list of read/delete/insert calls issued. -/
def POST (env : Env) (authHeader : Option String)
    (sheet : Except String (List (List Cell) × HL)) (st : Store) :
    Resp × Store × List Op :=
  match env.syncSecretKey with
  | none => (⟨500, ⟨false, some "Server configuration error", none⟩⟩, st, [])
  | some key =>
    if key = "" then (⟨500, ⟨false, some "Server configuration error", none⟩⟩, st, [])
    else
      match authHeader with
      | none => (unauthorizedResp, st, [])
      | some h =>
        if !strStarts "Bearer " h then (unauthorizedResp, st, [])
        else if ⟨h.data.drop 7⟩ ≠ key then (unauthorizedResp, st, [])
        else
          match env.googleSheetId with
          | none => (failResp "GOOGLE_SHEET_ID environment variable is required", st, [])
          | some _ =>
          match env.supabaseUrl with
          | none => (failResp "NEXT_PUBLIC_SUPABASE_URL environment variable is required", st, [])
          | some _ =>
          match env.supabaseServiceRoleKey with
          | none => (failResp "SUPABASE_SERVICE_ROLE_KEY environment variable is required", st, [])
          | some _ =>
          match sheet with
          | .error msg => (failResp msg, st, [.sheetRead])
          | .ok (rows, hl) =>
            match processProducts rows hl with
            | .error e => (failResp (jsErrorMsg e), st, [.sheetRead])
            | .ok ps =>
                let (st1, ops1) := deleteAllProducts st
                let (st2, ops2) := insertProducts st1 ps
                (⟨200, ⟨true, none, some ps.length⟩⟩, st2,
                  .sheetRead :: (ops1 ++ ops2))

/-! The CLI sync script's copy of the normalizer (src/unnamed/part_000,
`processProducts` at lines 130-241).  The script's row-processing logic is
translated independently below; the extra `console.log` statements it
contains have no effect on the returned data. -/

namespace CliScript

/-- Column A or B read in the CLI script, `row[i]?.trim() || null`. -/
def trimmedCol (row : List Cell) (i : Nat) : Except JsError (Option String) :=
  match colGet row i with
  | .absent => .ok none
  | .str s => .ok (if jsTrim s = "" then none else some (jsTrim s))
  | .num _ => .error .typeError

/-- Column E coercion `parseInt(row[4]) || 0` in the CLI script. -/
def stockOf (row : List Cell) : Int :=
  match jsParseInt (cellToJsString (colGet row 4)) with
  | none => 0
  | some n => n

/-- Column F parsing in the CLI script (part_000 lines 144-172). -/
def priceOf (cell : Cell) : Option Rat :=
  match cell with
  | .absent => none
  | .num n => some (n : Rat)
  | .str s =>
      if s = "" then none
      else
        let priceStr := jsTrim s
        if priceStr = "" then none
        else
          match jsParseFloat (jsTrim (stripCommas (stripWs (stripCurrency priceStr)))) with
          | .fin q => some q
          | _ => none

/-- Cell-text part of the CLI script's `extractUrl`. -/
def extractUrlCell (cellValue : Cell) : Option String :=
  if jsFalsyCell cellValue then none
  else
    let str := jsTrim (cellToJsString cellValue)
    if str = "" then none
    else if strStarts "http://" str || strStarts "https://" str then some str
    else findHttpMatch str

/-- The CLI script's `extractUrl` (part_000 lines 175-201). -/
def extractUrl (hl : HL) (rowIndex colIndex : Nat) (cellValue : Cell) : Option String :=
  match hl (hyperlinkKey rowIndex colIndex) with
  | some e => if e = "" then extractUrlCell cellValue else some e
  | none => extractUrlCell cellValue

/-- One iteration of the CLI script's `rows.map((row, index) => …)` body. -/
def processRow (row : List Cell) (index : Nat) (hl : HL) :
    Except JsError (Option Product) := do
  let name ← trimmedCol row 0
  let brand ← trimmedCol row 1
  let stock := stockOf row
  let price := priceOf (colGet row 5)
  let image_url_1 := extractUrl hl index 6 (colGet row 6)
  let image_url_2 := extractUrl hl index 7 (colGet row 7)
  match name with
  | none => return none
  | some n =>
      if stock ≤ 0 then return none
      else return some ⟨n, brand, stock, price, image_url_1, image_url_2⟩

/-- The CLI script's `processProducts`: map with index, then filter out the
nulls. -/
def processProducts (rows : List (List Cell)) (hl : HL) :
    Except JsError (List Product) := do
  let mapped ← rows.enum.mapM (fun p => processRow p.2 p.1 hl)
  return mapped.filterMap id

end CliScript

/-! General lemmas about the embedded monadic plumbing. -/

theorem exceptBind_ok {ε α β : Type} (x : Except ε α) (f : α → Except ε β) (c : β) :
    (x >>= f = .ok c) ↔ ∃ a, x = .ok a ∧ f a = .ok c := by
  cases x <;> simp [Bind.bind, Except.bind]

theorem mapM_ok_mem {ε α β : Type} (f : α → Except ε β) :
    ∀ (l : List α) (out : List β), l.mapM f = .ok out →
      ∀ b ∈ out, ∃ a ∈ l, f a = .ok b := by
  intro l
  induction l with
  | nil =>
      intro out h b hb
      simp only [List.mapM_nil] at h
      cases h
      simp at hb
  | cons a l ih =>
      intro out h b hb
      rw [List.mapM_cons] at h
      rcases (exceptBind_ok _ _ _).1 h with ⟨x, hx, h2⟩
      rcases (exceptBind_ok _ _ _).1 h2 with ⟨xs, hxs, h3⟩
      simp only [pure, Except.pure, Except.ok.injEq] at h3
      subst h3
      rcases List.mem_cons.1 hb with hb | hb
      · exact ⟨a, List.mem_cons_self a l, hb ▸ hx⟩
      · rcases ih xs hxs b hb with ⟨a', ha', hfa'⟩
        exact ⟨a', List.mem_cons_of_mem a ha', hfa'⟩

theorem mapM_ok_length {ε α β : Type} (f : α → Except ε β) :
    ∀ (l : List α) (out : List β), l.mapM f = .ok out → out.length = l.length := by
  intro l
  induction l with
  | nil =>
      intro out h
      simp only [List.mapM_nil] at h
      cases h
      rfl
  | cons a l ih =>
      intro out h
      rw [List.mapM_cons] at h
      rcases (exceptBind_ok _ _ _).1 h with ⟨x, _, h2⟩
      rcases (exceptBind_ok _ _ _).1 h2 with ⟨xs, hxs, h3⟩
      simp only [pure, Except.pure, Except.ok.injEq] at h3
      subst h3
      simp [ih xs hxs]

/-- Unfolding of `processProducts`: the per-row map must succeed, and the
output is the null-filtered list of its results. -/
theorem processProducts_ok_iff (rows : List (List Cell)) (hl : HL) (out : List Product) :
    processProducts rows hl = .ok out ↔
      ∃ opts : List (Option Product),
        rows.enum.mapM (fun p => processRow p.2 p.1 hl) = .ok opts ∧
        out = opts.filterMap id := by
  unfold processProducts
  constructor
  · intro h
    rcases (exceptBind_ok _ _ _).1 h with ⟨opts, hopts, h2⟩
    simp only [pure, Except.pure, Except.ok.injEq] at h2
    exact ⟨opts, hopts, h2.symm⟩
  · rintro ⟨opts, hopts, rfl⟩
    rw [show (do
          let mapped ← rows.enum.mapM (fun p => processRow p.2 p.1 hl)
          return mapped.filterMap id : Except JsError (List Product))
        = rows.enum.mapM (fun p => processRow p.2 p.1 hl) >>=
            (fun mapped => pure (mapped.filterMap id)) from rfl, hopts]
    rfl

/-- Elimination for a kept row: the record's fields are exactly the
source-order computations, the name comes from a non-whitespace column A,
and the stock passed the positivity filter. -/
theorem processRow_ok_some {row : List Cell} {i : Nat} {hl : HL} {p : Product}
    (h : processRow row i hl = .ok (some p)) :
    (∃ s, colGet row 0 = .str s ∧ jsTrim s ≠ "" ∧ p.name = jsTrim s) ∧
    trimmedCol row 1 = .ok p.brand ∧
    p.stock = stockOf row ∧ 0 < p.stock ∧
    p.price = priceOf (colGet row 5) ∧
    p.image_url_1 = extractUrl hl i 6 (colGet row 6) ∧
    p.image_url_2 = extractUrl hl i 7 (colGet row 7) := by
  unfold processRow at h
  rcases (exceptBind_ok _ _ _).1 h with ⟨name, hname, h2⟩
  rcases (exceptBind_ok _ _ _).1 h2 with ⟨brand, hbrand, h3⟩
  cases name with
  | none => simp [pure, Except.pure] at h3
  | some n =>
      by_cases hs : stockOf row ≤ 0
      · simp [hs, pure, Except.pure] at h3
      · simp only [hs, if_false, pure, Except.pure, Except.ok.injEq,
          Option.some.injEq] at h3
        subst h3
        unfold trimmedCol at hname
        cases hA : colGet row 0 with
        | absent => rw [hA] at hname; simp at hname
        | num m => rw [hA] at hname; simp at hname
        | str s =>
            rw [hA] at hname
            by_cases ht : jsTrim s = ""
            · simp [ht] at hname
            · simp only [ht, if_false, Except.ok.injEq, Option.some.injEq] at hname
              refine ⟨⟨s, rfl, ht, by simp [← hname]⟩, ?_, rfl,
                by show (0 : Int) < stockOf row; omega, rfl, rfl, rfl⟩
              exact hbrand

/-- A row with a missing/blank column A or a non-positive coerced stock is
mapped to null by the row normalizer. -/
theorem processRow_discard {row : List Cell} {i : Nat} {hl : HL} {r : Option Product}
    (h : processRow row i hl = .ok r)
    (hbad : (colGet row 0 = .absent ∨ ∃ s, colGet row 0 = .str s ∧ jsTrim s = "") ∨
      stockOf row ≤ 0) : r = none := by
  cases r with
  | none => rfl
  | some p =>
      rcases processRow_ok_some h with ⟨⟨s, hA, hne, _⟩, _, hstk, hpos, _⟩
      rcases hbad with hname | hstock
      · rcases hname with hab | ⟨t, ht, htt⟩
        · rw [hA] at hab; exact Cell.noConfusion hab
        · rw [hA] at ht
          injection ht with hst
          exact absurd htt (hst ▸ hne)
      · omega

/-! Lemmas about the replace-all writer. -/

theorem deleteAllProducts_rows (st : Store) : (deleteAllProducts st).1.rows = [] := by
  rcases st with ⟨n, rows⟩
  cases rows with
  | nil => rfl
  | cons r rs =>
      simp only [deleteAllProducts, List.map_cons, List.isEmpty_cons, Bool.false_eq_true,
        if_false, List.filter_eq_nil_iff]
      intro a ha
      simp only [Bool.not_eq_true, Bool.not_eq_false', List.contains_cons]
      simp only [List.elem_iff, Bool.or_eq_true, beq_iff_eq]
      rcases List.mem_cons.1 ha with rfl | ha
      · exact Or.inl rfl
      · exact Or.inr (List.mem_map_of_mem Prod.fst ha)

theorem deleteAllProducts_nextId (st : Store) : (deleteAllProducts st).1.nextId = st.nextId := by
  rcases st with ⟨n, rows⟩
  cases rows with
  | nil => rfl
  | cons r rs =>
      simp [deleteAllProducts]

theorem deleteAllProducts_ops_empty (st : Store) (h : st.rows = []) :
    (deleteAllProducts st).2 = [.selectIds] := by
  rcases st with ⟨n, rows⟩
  cases h
  rfl

theorem deleteAllProducts_ops_nonempty (st : Store) (h : st.rows ≠ []) :
    (deleteAllProducts st).2 = [.selectIds, .deleteIn (st.rows.map Prod.fst)] := by
  rcases st with ⟨n, rows⟩
  cases rows with
  | nil => exact absurd rfl h
  | cons r rs => rfl

theorem chunk100_flatten : ∀ ps : List Product, (chunk100 ps).flatten = ps := by
  intro ps
  induction ps using chunk100.induct with
  | case1 => rw [chunk100]; rfl
  | case2 a l ih =>
      rw [chunk100, List.flatten_cons, ih, List.take_append_drop]

theorem insertBatch_map_snd (st : Store) (b : List Product) :
    (insertBatch st b).rows.map Prod.snd = st.rows.map Prod.snd ++ b := by
  unfold insertBatch
  simp only [List.map_append, List.map_map]
  congr 1
  show List.map (Prod.snd ∘ fun p => (st.nextId + p.1, p.2)) (List.enumFrom 0 b) = b
  have hc : (Prod.snd ∘ fun p : Nat × Product => (st.nextId + p.1, p.2)) = Prod.snd := rfl
  rw [hc]
  exact List.enumFrom_map_snd 0 b

theorem insertLoop_rows : ∀ (bs : List (List Product)) (st : Store),
    ((insertLoop st bs).1).rows.map Prod.snd = st.rows.map Prod.snd ++ bs.flatten := by
  intro bs
  induction bs with
  | nil => intro st; simp [insertLoop]
  | cons b bs ih =>
      intro st
      simp only [insertLoop, List.flatten_cons]
      rw [ih, insertBatch_map_snd, List.append_assoc]

theorem insertLoop_ops : ∀ (bs : List (List Product)) (st : Store),
    ∀ op ∈ (insertLoop st bs).2, ∃ b, op = Op.insertBatch b := by
  intro bs
  induction bs with
  | nil => intro st op hop; simp [insertLoop] at hop
  | cons b bs ih =>
      intro st op hop
      simp only [insertLoop, List.mem_cons] at hop
      rcases hop with rfl | hop
      · exact ⟨b, rfl⟩
      · exact ih _ op hop

theorem insertProducts_rows (st : Store) (ps : List Product) :
    ((insertProducts st ps).1).rows.map Prod.snd = st.rows.map Prod.snd ++ ps := by
  cases ps with
  | nil => simp [insertProducts]
  | cons p l =>
      unfold insertProducts
      simp only [List.isEmpty_cons, Bool.false_eq_true, if_false]
      rw [insertLoop_rows, chunk100_flatten]

theorem insertProducts_ops (st : Store) (ps : List Product) :
    ∀ op ∈ (insertProducts st ps).2, ∃ b, op = Op.insertBatch b := by
  cases ps with
  | nil => intro op hop; simp [insertProducts] at hop
  | cons p l =>
      unfold insertProducts
      simp only [List.isEmpty_cons, Bool.false_eq_true, if_false]
      exact insertLoop_ops _ st

theorem insertProducts_nil (st : Store) : insertProducts st [] = (st, []) := rfl

/-! String lemmas used for the bearer-token arithmetic and URL shapes. -/

theorem chStarts_self_append : ∀ (l t : List Char), chStarts l (l ++ t) = true := by
  intro l t
  induction l with
  | nil => rfl
  | cons c cs ih => simp [chStarts, ih]

theorem strStarts_self_append (p t : String) : strStarts p (p ++ t) = true := by
  unfold strStarts
  rw [String.data_append]
  exact chStarts_self_append p.data t.data

theorem bearer_token_extract (key : String) :
    (⟨("Bearer " ++ key).data.drop 7⟩ : String) = key := by
  rw [String.data_append]
  rw [show (7 : Nat) = ("Bearer ".data).length from rfl, List.drop_left]

/-! Non-negativity of unsigned parsed decimals (for the amended price
invariant). -/

theorem jsDecValue_fin_nonneg (cs : List Char) (q : Rat)
    (h : jsDecValue cs = .fin q) : 0 ≤ q := by
  unfold jsDecValue at h
  split at h
  · cases h
  · split at h
    · cases h
    · injection h with h
      subst h
      refine mul_nonneg (by positivity) ?_
      unfold pow10
      split
      · positivity
      · positivity

/-- A string with no leading JS whitespace and no leading minus parses, if
finite, to a non-negative value. -/
theorem jsParseFloat_fin_nonneg (s : String) (q : Rat)
    (hws : s.data.dropWhile jsWs = s.data)
    (hneg : strStarts "-" s = false)
    (h : jsParseFloat s = .fin q) : 0 ≤ q := by
  have hc : ∀ rest : List Char, s.data ≠ '-' :: rest := by
    intro rest hcm
    unfold strStarts at hneg
    rw [hcm] at hneg
    simp [chStarts] at hneg
  unfold jsParseFloat at h
  split at h
  · rename_i rest heq
    rw [hws] at heq
    exact absurd heq (hc _)
  · exact jsDecValue_fin_nonneg _ _ h
  · exact jsDecValue_fin_nonneg _ _ h

/-! Whitespace-freeness of the cleaned price string. -/

theorem stripWs_no_ws (s : String) : ∀ c ∈ (stripWs s).data, jsWs c = false := by
  intro c hc
  unfold stripWs at hc
  rcases List.mem_filter.1 hc with ⟨_, hprop⟩
  simpa using hprop

theorem stripCommas_mem_subset (s : String) :
    ∀ c ∈ (stripCommas s).data, c ∈ s.data := by
  intro c hc
  unfold stripCommas at hc
  exact (List.mem_filter.1 hc).1

theorem jsTrim_mem_subset (s : String) : ∀ c ∈ (jsTrim s).data, c ∈ s.data := by
  intro c hc
  unfold jsTrim at hc
  simp only [List.mem_reverse] at hc
  have h1 := (List.dropWhile_sublist jsWs).subset hc
  simp only [List.mem_reverse] at h1
  exact (List.dropWhile_sublist jsWs).subset h1

theorem cleanedPriceStr_no_ws (t : String) :
    ∀ c ∈ (cleanedPriceStr t).data, jsWs c = false := by
  intro c hc
  unfold cleanedPriceStr at hc
  have h1 := jsTrim_mem_subset _ c hc
  have h2 := stripCommas_mem_subset _ c h1
  exact stripWs_no_ws _ c h2

theorem dropWhile_eq_self_of_no_ws (l : List Char)
    (h : ∀ c ∈ l, jsWs c = false) : l.dropWhile jsWs = l := by
  cases l with
  | nil => rfl
  | cons a l =>
      rw [List.dropWhile_cons, h a (List.mem_cons_self a l)]
      simp

/-! Shape of extracted URLs. -/

theorem tryHttpAt_scheme (l : List Char) (u : String) (h : tryHttpAt l = some u) :
    strStarts "http://" u = true ∨ strStarts "https://" u = true := by
  unfold tryHttpAt at h
  by_cases h8 : chStarts "https://".data l
  · rw [if_pos h8] at h
    by_cases he : ((l.drop 8).takeWhile urlTailOk).isEmpty
    · rw [if_pos he] at h; cases h
    · rw [if_neg he] at h
      injection h with h
      subst h
      right
      show chStarts "https://".data ("https://".data ++ _) = true
      exact chStarts_self_append _ _
  · rw [if_neg h8] at h
    by_cases h7 : chStarts "http://".data l
    · rw [if_pos h7] at h
      by_cases he : ((l.drop 7).takeWhile urlTailOk).isEmpty
      · rw [if_pos he] at h; cases h
      · rw [if_neg he] at h
        injection h with h
        subst h
        left
        show chStarts "http://".data ("http://".data ++ _) = true
        exact chStarts_self_append _ _
    · rw [if_neg h7] at h; cases h

theorem findHttpMatchAux_scheme : ∀ (l : List Char) (u : String),
    findHttpMatchAux l = some u →
    strStarts "http://" u = true ∨ strStarts "https://" u = true := by
  intro l
  induction l with
  | nil => intro u h; cases h
  | cons c cs ih =>
      intro u h
      unfold findHttpMatchAux at h
      cases hm : tryHttpAt (c :: cs) with
      | some m =>
          rw [hm] at h
          injection h with h
          subst h
          exact tryHttpAt_scheme _ _ hm
      | none =>
          rw [hm] at h
          exact ih u h

theorem findHttpMatch_scheme (s : String) (u : String) (h : findHttpMatch s = some u) :
    strStarts "http://" u = true ∨ strStarts "https://" u = true :=
  findHttpMatchAux_scheme s.data u h

theorem extractUrlCell_scheme (cell : Cell) (u : String)
    (h : extractUrlCell cell = some u) :
    strStarts "http://" u = true ∨ strStarts "https://" u = true := by
  unfold extractUrlCell at h
  by_cases hf : jsFalsyCell cell
  · rw [if_pos hf] at h; cases h
  · rw [if_neg hf] at h
    by_cases ht : jsTrim (cellToJsString cell) = ""
    · rw [if_pos ht] at h; cases h
    · rw [if_neg ht] at h
      by_cases hs : (strStarts "http://" (jsTrim (cellToJsString cell)) ||
          strStarts "https://" (jsTrim (cellToJsString cell)))
      · rw [if_pos hs] at h
        injection h with h
        subst h
        simpa using hs
      · rw [if_neg hs] at h
        exact findHttpMatch_scheme _ _ h

/-- With no usable overlay entry (absent key or the falsy empty string),
any URL `extractUrl` produces carries an http or https scheme. -/
theorem extractUrl_no_overlay_scheme (hl : HL) (i col : Nat) (cell : Cell) (u : String)
    (hover : hl (hyperlinkKey i col) = none ∨ hl (hyperlinkKey i col) = some "")
    (h : extractUrl hl i col cell = some u) :
    strStarts "http://" u = true ∨ strStarts "https://" u = true := by
  unfold extractUrl at h
  rcases hover with hov | hov <;> rw [hov] at h
  · exact extractUrlCell_scheme _ _ h
  · dsimp only at h
    rw [if_pos rfl] at h
    exact extractUrlCell_scheme _ _ h

/-- A truthy (non-empty) overlay entry is returned unconditionally. -/
theorem extractUrl_overlay_hit (hl : HL) (i col : Nat) (cell : Cell) (e : String)
    (he : hl (hyperlinkKey i col) = some e) (hne : e ≠ "") :
    extractUrl hl i col cell = some e := by
  unfold extractUrl
  rw [he]
  dsimp only
  rw [if_neg hne]

/-- Without a truthy overlay entry, `extractUrl` is the cell-text resolution. -/
theorem extractUrl_no_overlay (hl : HL) (i col : Nat) (cell : Cell)
    (hover : hl (hyperlinkKey i col) = none ∨ hl (hyperlinkKey i col) = some "") :
    extractUrl hl i col cell = extractUrlCell cell := by
  unfold extractUrl
  rcases hover with hov | hov
  · rw [hov]
  · rw [hov]
    dsimp only
    rw [if_pos rfl]

/-! Claim theorems. -/

/-- C1: every record in the normalizer's output has a non-empty trimmed
name and stock > 0; a raw row whose column A is absent, empty or
whitespace-only, or whose column E coerces to an integer ≤ 0 (non-numeric
and absent values coercing to 0), is mapped to null and so excluded. -/
theorem c1_normalizer_invariant (rows : List (List Cell)) (hl : HL) (out : List Product)
    (h : processProducts rows hl = .ok out) :
    (∀ p ∈ out, p.name ≠ "" ∧ 0 < p.stock ∧
      ∃ row ∈ rows, ∃ s, colGet row 0 = .str s ∧ p.name = jsTrim s) ∧
    (∀ row ∈ rows, ∀ (i : Nat) (r : Option Product), processRow row i hl = .ok r →
      ((colGet row 0 = .absent ∨ ∃ s, colGet row 0 = .str s ∧ jsTrim s = "") ∨
        stockOf row ≤ 0) → r = none) ∧
    (∀ row : List Cell, colGet row 4 = .absent → stockOf row = 0) ∧
    (∀ (row : List Cell) (s : String), colGet row 4 = .str s → jsParseInt s = none →
      stockOf row = 0) := by
  refine ⟨?_, ?_, ?_, ?_⟩
  · intro p hp
    rcases (processProducts_ok_iff rows hl out).1 h with ⟨opts, hopts, hout⟩
    subst hout
    rcases List.mem_filterMap.1 hp with ⟨o, ho, hid⟩
    cases o with
    | none => cases hid
    | some p' =>
        have hpp : p' = p := by simpa using hid
        rcases mapM_ok_mem _ _ _ hopts (some p') ho with ⟨⟨i, row⟩, hmem, hrow⟩
        rcases processRow_ok_some hrow with ⟨⟨s, hA, hne, hnm⟩, _, _, hpos, _⟩
        have hrm : row ∈ rows := by
          have h2 := List.mem_map_of_mem Prod.snd hmem
          rwa [show rows.enum.map Prod.snd = rows from List.enumFrom_map_snd 0 rows] at h2
        rw [← hpp]
        exact ⟨by rw [hnm]; exact hne, hpos, row, hrm, s, hA, hnm⟩
  · intro row _ i r hr hbad
    exact processRow_discard hr hbad
  · intro row h4
    unfold stockOf
    rw [h4]
    decide
  · intro row s h4 hnone
    unfold stockOf
    rw [h4, show cellToJsString (Cell.str s) = s from rfl, hnone]

theorem c1_witness :
    processProducts
        [[Cell.str " Vase A ", Cell.absent, Cell.absent, Cell.absent, Cell.str "5"],
         [Cell.str "  ", Cell.absent, Cell.absent, Cell.absent, Cell.str "3"],
         [Cell.str "Plate B", Cell.absent, Cell.absent, Cell.absent, Cell.str "0"]]
        (fun _ => none)
      = .ok [⟨"Vase A", none, 5, none, none, none⟩] ∧
    ("Vase A" : String) ≠ "" ∧ (0 : Int) < 5 := by
  have base : processProducts
      [[Cell.str " Vase A ", Cell.absent, Cell.absent, Cell.absent, Cell.str "5"],
       [Cell.str "  ", Cell.absent, Cell.absent, Cell.absent, Cell.str "3"],
       [Cell.str "Plate B", Cell.absent, Cell.absent, Cell.absent, Cell.str "0"]]
      (fun _ => none)
      = .ok [⟨"Vase A", none, 5, none, none, none⟩] := by rfl
  have h := (c1_normalizer_invariant _ _ _ base).1
    ⟨"Vase A", none, 5, none, none, none⟩ (List.mem_singleton.2 rfl)
  exact ⟨base, h.1, h.2.1⟩

/-- C3: a textual price cell is trimmed, stripped of currency characters,
whitespace and commas, and parsed as a decimal, kept only when finite;
`"₽27,000.00"` gives 27000, `"27000"` gives 27000, and a numeric cell is
used as-is. -/
theorem c3_price_parsing :
    (∀ s : String, priceOf (.str s) =
      if jsTrim s = "" then none
      else match jsParseFloat (cleanedPriceStr (jsTrim s)) with
        | .fin q => some q
        | _ => none) ∧
    priceOf (.str "₽27,000.00") = some 27000 ∧
    priceOf (.str "27000") = some 27000 ∧
    (∀ n : Int, priceOf (.num n) = some (n : Rat)) := by
  refine ⟨?_, by with_unfolding_all rfl, by with_unfolding_all rfl, fun n => rfl⟩
  intro s
  by_cases hs : s = ""
  · subst hs
    rfl
  · unfold priceOf
    dsimp only
    rw [if_neg hs]

/-- C8: the output is the order-preserving null-filtered list of the
per-row normalization results, one result per input row, with no
placeholder left for discarded rows. -/
theorem c8_order_preserving (rows : List (List Cell)) (hl : HL) (out : List Product)
    (h : processProducts rows hl = .ok out) :
    ∃ opts : List (Option Product),
      rows.enum.mapM (fun p => processRow p.2 p.1 hl) = .ok opts ∧
      opts.length = rows.length ∧
      out = opts.filterMap id := by
  rcases (processProducts_ok_iff rows hl out).1 h with ⟨opts, hopts, hout⟩
  refine ⟨opts, hopts, ?_, hout⟩
  have hlen := mapM_ok_length _ _ _ hopts
  simpa using hlen

theorem c8_witness :
    ∃ opts : List (Option Product),
      ([[Cell.str "A", Cell.absent, Cell.absent, Cell.absent, Cell.str "2"],
        [Cell.str " ", Cell.absent, Cell.absent, Cell.absent, Cell.str "9"]].enum.mapM
        (fun p => processRow p.2 p.1 (fun _ => none))) = .ok opts ∧
      opts.length = 2 ∧
      [(⟨"A", none, 2, none, none, none⟩ : Product)] = opts.filterMap id := by
  have base : processProducts
      [[Cell.str "A", Cell.absent, Cell.absent, Cell.absent, Cell.str "2"],
       [Cell.str " ", Cell.absent, Cell.absent, Cell.absent, Cell.str "9"]]
      (fun _ => none) = .ok [⟨"A", none, 2, none, none, none⟩] := by rfl
  exact c8_order_preserving _ _ _ base

/-- C9: the CLI script's `processProducts` and the HTTP route's
`processProducts` agree on every row sequence and hyperlink overlay. -/
theorem c9_cli_route_agree : ∀ (rows : List (List Cell)) (hl : HL),
    CliScript.processProducts rows hl = processProducts rows hl :=
  fun _ _ => rfl

/-- Cell-text resolution on a string cell, expressed through the trimmed
text: an http/https head returns the trimmed text, otherwise the first
regex match (the falsy/empty special cases coincide with that shape). -/
theorem extractUrlCell_str_eq (s : String) :
    extractUrlCell (.str s) =
      (if (strStarts "http://" (jsTrim s) || strStarts "https://" (jsTrim s)) = true
       then some (jsTrim s) else findHttpMatch (jsTrim s)) := by
  unfold extractUrlCell
  by_cases hf : jsFalsyCell (.str s)
  · rw [if_pos hf]
    have hs : s = "" := by simpa [jsFalsyCell] using hf
    subst hs
    rfl
  · rw [if_neg hf]
    dsimp only
    have hc : cellToJsString (Cell.str s) = s := rfl
    rw [hc]
    by_cases ht : jsTrim s = ""
    · rw [if_pos ht, ht]
      rfl
    · rw [if_neg ht]

/-- C4 counterexample: an overlay entry that is the empty string is not
returned; the cell text wins instead, so "an overlay entry is always
preferred regardless of cell text" fails at the empty-string entry. -/
theorem c4_counterexample :
    (fun k => if k = "0_6" then some "" else none : HL) (hyperlinkKey 0 6) = some "" ∧
    extractUrl (fun k => if k = "0_6" then some "" else none) 0 6
        (.str "https://a.example/x") = some "https://a.example/x" ∧
    some "https://a.example/x" ≠ some ("" : String) := by
  refine ⟨by rfl, by rfl, by decide⟩

/-- C4 amended: a non-empty overlay entry for the key always wins
regardless of the cell text; with no entry, or with the (falsy) empty
string as the entry, resolution falls back to the cell text: the trimmed
text when it has an http/https head, else the first embedded regex match,
else absent. -/
theorem c4_resolution_order (hl : HL) (i col : Nat) (cell : Cell) :
    (∀ e, hl (hyperlinkKey i col) = some e → e ≠ "" →
      extractUrl hl i col cell = some e) ∧
    ((hl (hyperlinkKey i col) = none ∨ hl (hyperlinkKey i col) = some "") →
      (cell = .absent → extractUrl hl i col cell = none) ∧
      (∀ s, cell = .str s →
        ((strStarts "http://" (jsTrim s) || strStarts "https://" (jsTrim s)) = true →
          extractUrl hl i col cell = some (jsTrim s)) ∧
        ((strStarts "http://" (jsTrim s) || strStarts "https://" (jsTrim s)) = false →
          extractUrl hl i col cell = findHttpMatch (jsTrim s)))) := by
  refine ⟨fun e he hne => extractUrl_overlay_hit hl i col cell e he hne,
    fun hov => ⟨?_, ?_⟩⟩
  · intro hcell
    subst hcell
    rw [extractUrl_no_overlay _ _ _ _ hov]
    rfl
  · intro s hcell
    subst hcell
    rw [extractUrl_no_overlay _ _ _ _ hov, extractUrlCell_str_eq]
    constructor
    · intro hst
      rw [if_pos hst]
    · intro hst
      rw [hst]
      simp

theorem c4_witness :
    extractUrl (fun k => if k = "0_6" then some "https://cdn.example/y.png" else none)
        0 6 (.str "ignored text") = some "https://cdn.example/y.png" := by
  exact (c4_resolution_order _ 0 6 _).1 "https://cdn.example/y.png" (by rfl) (by decide)

/-- C6 counterexample: a textual price cell `"-5"` on a kept row yields a
present, negative price, so "price is non-negative when present" fails. -/
theorem c6_counterexample :
    processProducts
        [[Cell.str "A", Cell.absent, Cell.absent, Cell.absent, Cell.str "1", Cell.str "-5"]]
        (fun _ => none)
      = .ok [⟨"A", none, 1, some (-5), none, none⟩] ∧ ((-5 : Rat) < 0) := by
  constructor
  · with_unfolding_all rfl
  · norm_num

/-- C6 amended: the normalizer performs no sign check, so a present price
may be negative; it is non-negative whenever the numeric source cell is
non-negative, or the textual source cell's cleaned form does not begin
with a minus sign. -/
theorem c6_price_sign (row : List Cell) (i : Nat) (hl : HL) (p : Product) (q : Rat)
    (h : processRow row i hl = .ok (some p)) (hq : p.price = some q) :
    (∀ n : Int, colGet row 5 = .num n → 0 ≤ n → 0 ≤ q) ∧
    (∀ s : String, colGet row 5 = .str s →
      strStarts "-" (cleanedPriceStr (jsTrim s)) = false → 0 ≤ q) := by
  rcases processRow_ok_some h with ⟨_, _, _, _, hpr, _, _⟩
  rw [hpr] at hq
  constructor
  · intro n hn hnn
    rw [hn] at hq
    have hnq : ((n : Rat)) = q := by
      have : priceOf (.num n) = some ((n : Rat)) := rfl
      rw [this] at hq
      exact Option.some.inj hq
    rw [← hnq]
    exact_mod_cast hnn
  · intro s hs hneg
    rw [hs] at hq
    unfold priceOf at hq
    dsimp only at hq
    by_cases hse : s = ""
    · rw [if_pos hse] at hq; cases hq
    · rw [if_neg hse] at hq
      by_cases hte : jsTrim s = ""
      · rw [if_pos hte] at hq; cases hq
      · rw [if_neg hte] at hq
        cases hpf : jsParseFloat (cleanedPriceStr (jsTrim s)) with
        | nan => rw [hpf] at hq; cases hq
        | inf b => rw [hpf] at hq; cases hq
        | fin q' =>
            rw [hpf] at hq
            have hqq : q' = q := by
              dsimp only at hq
              exact Option.some.inj hq
            subst hqq
            refine jsParseFloat_fin_nonneg _ _ ?_ hneg hpf
            exact dropWhile_eq_self_of_no_ws _ (cleanedPriceStr_no_ws _)

theorem c6_witness :
    processRow [Cell.str "A", Cell.absent, Cell.absent, Cell.absent, Cell.str "1", Cell.num 3]
        0 (fun _ => none) = .ok (some ⟨"A", none, 1, some ((3 : Int) : Rat), none, none⟩) ∧
    (0 : Rat) ≤ ((3 : Int) : Rat) := by
  have base : processRow
      [Cell.str "A", Cell.absent, Cell.absent, Cell.absent, Cell.str "1", Cell.num 3]
      0 (fun _ => none) = .ok (some ⟨"A", none, 1, some ((3 : Int) : Rat), none, none⟩) := by
    rfl
  have h := c6_price_sign _ 0 (fun _ => none)
    ⟨"A", none, 1, some ((3 : Int) : Rat), none, none⟩ ((3 : Int) : Rat) base rfl
  exact ⟨base, h.1 3 rfl (by decide)⟩

/-- C7 counterexample: a hyperlink overlay entry is returned verbatim with
no scheme validation, so a kept record can carry an image URL that is not
an http(s) absolute URL. -/
theorem c7_counterexample :
    processProducts [[Cell.str "A", Cell.absent, Cell.absent, Cell.absent, Cell.str "1"]]
        (fun k => if k = "0_6" then some "ftp://files.example.com/a.jpg" else none)
      = .ok [⟨"A", none, 1, none, some "ftp://files.example.com/a.jpg", none⟩] ∧
    strStarts "http://" "ftp://files.example.com/a.jpg" = false ∧
    strStarts "https://" "ftp://files.example.com/a.jpg" = false := by
  refine ⟨by rfl, by decide, by decide⟩

/-- C7 amended: on any kept record, an image URL that did not come from a
usable overlay entry (the key is absent, or holds the falsy empty string)
starts with http:// or https://; overlay entries themselves are passed
through unvalidated. -/
theorem c7_image_urls_scheme (row : List Cell) (i : Nat) (hl : HL) (p : Product)
    (h : processRow row i hl = .ok (some p)) :
    ((hl (hyperlinkKey i 6) = none ∨ hl (hyperlinkKey i 6) = some "") →
      ∀ u, p.image_url_1 = some u →
        strStarts "http://" u = true ∨ strStarts "https://" u = true) ∧
    ((hl (hyperlinkKey i 7) = none ∨ hl (hyperlinkKey i 7) = some "") →
      ∀ u, p.image_url_2 = some u →
        strStarts "http://" u = true ∨ strStarts "https://" u = true) := by
  rcases processRow_ok_some h with ⟨_, _, _, _, _, h6, h7⟩
  constructor
  · intro hov u hu
    rw [h6] at hu
    exact extractUrl_no_overlay_scheme _ _ _ _ _ hov hu
  · intro hov u hu
    rw [h7] at hu
    exact extractUrl_no_overlay_scheme _ _ _ _ _ hov hu

theorem c7_witness :
    strStarts "http://" "https://img.example/p.png" = true ∨
    strStarts "https://" "https://img.example/p.png" = true := by
  have base : processRow
      [Cell.str "A", Cell.absent, Cell.absent, Cell.absent, Cell.str "2", Cell.absent,
       Cell.str " https://img.example/p.png "]
      0 (fun _ => none)
      = .ok (some ⟨"A", none, 2, none, some "https://img.example/p.png", none⟩) := by
    rfl
  exact (c7_image_urls_scheme _ 0 _ _ base).1 (Or.inl rfl)
    "https://img.example/p.png" rfl

/-- Fully-authorized, fully-configured run of the handler: it reads the
sheet, normalizes, deletes, inserts, and reports the normalized count. -/
theorem POST_authorized (key g u k2 : String) (hkey : key ≠ "")
    (st : Store) (rows : List (List Cell)) (hl : HL) (ps : List Product)
    (h : processProducts rows hl = .ok ps) :
    POST ⟨some key, some g, some u, some k2⟩ (some ("Bearer " ++ key))
        (.ok (rows, hl)) st =
      (⟨200, ⟨true, none, some ps.length⟩⟩,
       (insertProducts (deleteAllProducts st).1 ps).1,
       .sheetRead ::
         ((deleteAllProducts st).2 ++ (insertProducts (deleteAllProducts st).1 ps).2)) := by
  unfold POST
  dsimp only
  rw [if_neg hkey]
  have hb : strStarts "Bearer " ("Bearer " ++ key) = true := strStarts_self_append _ _
  simp only [hb, Bool.not_true, Bool.false_eq_true, if_false]
  rw [bearer_token_extract key]
  rw [if_neg (fun hc => hc rfl)]
  rw [h]

/-- C2: after a complete sync run the table rows are exactly the
normalizer's output (same records, same count); an empty pre-run table
issues only the id fetch, a non-empty one issues the fetch and one bulk
delete of all fetched ids; every later call is an insert, and in the
handler's call trace the delete calls precede every insert call. -/
theorem c2_replace_all (st : Store) (rows : List (List Cell)) (hl : HL) (ps : List Product)
    (h : processProducts rows hl = .ok ps) :
    ((insertProducts (deleteAllProducts st).1 ps).1.rows.map Prod.snd = ps) ∧
    ((insertProducts (deleteAllProducts st).1 ps).1.rows.length = ps.length) ∧
    (st.rows = [] → (deleteAllProducts st).2 = [.selectIds]) ∧
    (st.rows ≠ [] →
      (deleteAllProducts st).2 = [.selectIds, .deleteIn (st.rows.map Prod.fst)]) ∧
    (∀ op ∈ (insertProducts (deleteAllProducts st).1 ps).2, ∃ b, op = Op.insertBatch b) ∧
    (∀ key g u k2, key ≠ "" →
      (POST ⟨some key, some g, some u, some k2⟩ (some ("Bearer " ++ key))
          (.ok (rows, hl)) st).2.2 =
        .sheetRead ::
          ((deleteAllProducts st).2 ++ (insertProducts (deleteAllProducts st).1 ps).2)) := by
  have h1 : (insertProducts (deleteAllProducts st).1 ps).1.rows.map Prod.snd = ps := by
    rw [insertProducts_rows, deleteAllProducts_rows]
    rfl
  refine ⟨h1, ?_, deleteAllProducts_ops_empty st, deleteAllProducts_ops_nonempty st,
    insertProducts_ops _ _, ?_⟩
  · have hlen := congrArg List.length h1
    simpa using hlen
  · intro key g u k2 hkey
    rw [POST_authorized key g u k2 hkey st rows hl ps h]

theorem c2_witness :
    (insertProducts
        (deleteAllProducts ⟨2, [(0, ⟨"Old A", none, 1, none, none, none⟩),
          (1, ⟨"Old B", none, 4, none, none, none⟩)]⟩).1
        [⟨"New C", none, 7, none, none, none⟩]).1.rows.map Prod.snd =
      [⟨"New C", none, 7, none, none, none⟩] ∧
    (deleteAllProducts (⟨2, [(0, ⟨"Old A", none, 1, none, none, none⟩),
        (1, ⟨"Old B", none, 4, none, none, none⟩)]⟩ : Store)).2 =
      [.selectIds, .deleteIn [0, 1]] := by
  have base : processProducts
      [[Cell.str "New C", Cell.absent, Cell.absent, Cell.absent, Cell.str "7"]]
      (fun _ => none) = .ok [⟨"New C", none, 7, none, none, none⟩] := by rfl
  have h := c2_replace_all
    ⟨2, [(0, ⟨"Old A", none, 1, none, none, none⟩),
         (1, ⟨"Old B", none, 4, none, none, none⟩)]⟩ _ _ _ base
  exact ⟨h.1, h.2.2.2.1 (by decide)⟩

/-- C10: with zero normalized records, an authorized run still deletes all
existing products (bulk delete of every fetched id when the table was
non-empty), issues no insert call, finishes with status 200 and count 0,
and leaves the table empty. -/
theorem c10_empty_normalizer_output (key g u k2 : String) (hkey : key ≠ "")
    (st : Store) (rows : List (List Cell)) (hl : HL)
    (h : processProducts rows hl = .ok []) :
    POST ⟨some key, some g, some u, some k2⟩ (some ("Bearer " ++ key))
        (.ok (rows, hl)) st =
      (⟨200, ⟨true, none, some 0⟩⟩, ⟨st.nextId, []⟩,
        .sheetRead :: (deleteAllProducts st).2) ∧
    (st.rows ≠ [] → Op.deleteIn (st.rows.map Prod.fst) ∈ (deleteAllProducts st).2) ∧
    (∀ op ∈ (deleteAllProducts st).2, ¬ ∃ b, op = Op.insertBatch b) := by
  have hst1 : (deleteAllProducts st).1 = ⟨st.nextId, []⟩ := by
    have h1 := deleteAllProducts_rows st
    have h2 := deleteAllProducts_nextId st
    rcases hd : deleteAllProducts st with ⟨st1, ops1⟩
    rw [hd] at h1 h2
    rcases st1 with ⟨n1, r1⟩
    dsimp at h1 h2 ⊢
    rw [h1, h2]
  refine ⟨?_, ?_, ?_⟩
  · rw [POST_authorized key g u k2 hkey st rows hl [] h, hst1]
    rw [show insertProducts ⟨st.nextId, []⟩ [] = (⟨st.nextId, []⟩, []) from rfl]
    simp
  · intro hne
    rw [deleteAllProducts_ops_nonempty st hne]
    simp
  · intro op hop
    rcases hempty : st.rows with _ | ⟨r, rs⟩
    · rw [deleteAllProducts_ops_empty st hempty] at hop
      rcases List.mem_singleton.1 hop with rfl
      rintro ⟨b, hb⟩
      cases hb
    · rw [deleteAllProducts_ops_nonempty st (by rw [hempty]; simp)] at hop
      rcases List.mem_cons.1 hop with rfl | hop2
      · rintro ⟨b, hb⟩; cases hb
      · rcases List.mem_singleton.1 hop2 with rfl
        rintro ⟨b, hb⟩; cases hb

theorem c10_witness :
    POST ⟨some "k", some "sheet", some "url", some "svc"⟩ (some ("Bearer " ++ "k"))
        (.ok ([[Cell.str "A", Cell.absent, Cell.absent, Cell.absent, Cell.str "0"]],
          fun _ => none))
        ⟨1, [(0, ⟨"Old", none, 3, none, none, none⟩)]⟩ =
      (⟨200, ⟨true, none, some 0⟩⟩, ⟨1, []⟩,
        .sheetRead :: (deleteAllProducts
          ⟨1, [(0, ⟨"Old", none, 3, none, none, none⟩)]⟩).2) := by
  exact (c10_empty_normalizer_output "k" "sheet" "url" "svc" (by decide)
    ⟨1, [(0, ⟨"Old", none, 3, none, none, none⟩)]⟩ _ _ (by rfl)).1

/-- C5: with a configured non-empty secret, a POST whose Authorization
header is missing, lacks the `Bearer ` shape, or carries a token different
from the secret gets status 401 with body success=false,
error="Unauthorized", an unchanged store, and an empty call trace (zero
read, delete or insert calls); a matching token whose pipeline completes
gets status 200 with success=true and the normalizer's output count. -/
theorem c5_auth_gate (env : Env) (key : String) (auth : Option String)
    (sheet : Except String (List (List Cell) × HL)) (st : Store)
    (hk : env.syncSecretKey = some key) (hne : key ≠ "") :
    ((auth = none ∨ ∃ hdr, auth = some hdr ∧
        (strStarts "Bearer " hdr = false ∨ (⟨hdr.data.drop 7⟩ : String) ≠ key)) →
      POST env auth sheet st = (⟨401, ⟨false, some "Unauthorized", none⟩⟩, st, [])) ∧
    (∀ g u sk rows hl ps, env = ⟨some key, some g, some u, some sk⟩ →
      auth = some ("Bearer " ++ key) → sheet = .ok (rows, hl) →
      processProducts rows hl = .ok ps →
      (POST env auth sheet st).1 = ⟨200, ⟨true, none, some ps.length⟩⟩) := by
  constructor
  · intro hbad
    rcases env with ⟨sk0, g0, u0, k0⟩
    simp only [Env.syncSecretKey] at hk
    subst hk
    unfold POST
    dsimp only
    rw [if_neg hne]
    rcases hbad with rfl | ⟨hdr, rfl, hcase⟩
    · rfl
    · dsimp only
      rcases hcase with hb | ht
      · simp only [hb, Bool.not_false, if_true]
        rfl
      · by_cases hbb : strStarts "Bearer " hdr
        · simp only [hbb, Bool.not_true, Bool.false_eq_true, if_false]
          rw [if_pos ht]
          rfl
        · simp only [Bool.not_eq_true] at hbb
          simp only [hbb, Bool.not_false, if_true]
          rfl
  · intro g u sk rows hl ps henv hauth hsheet hps
    subst henv hauth hsheet
    rw [POST_authorized key g u sk hne st rows hl ps hps]

theorem c5_witness :
    POST ⟨some "s3cr3t", some "sheet", some "url", some "svc"⟩ none
        (.error "not reached") ⟨0, []⟩ =
      (⟨401, ⟨false, some "Unauthorized", none⟩⟩, ⟨0, []⟩, []) := by
  exact (c5_auth_gate ⟨some "s3cr3t", some "sheet", some "url", some "svc"⟩
    "s3cr3t" none (.error "not reached") ⟨0, []⟩ rfl (by decide)).1 (Or.inl rfl)
